import Mathlib

/-!
Shallow embedding of the magic-hexagon search program `src/solve-hex.cpp`.

The program enumerates assignments of the values 1..19 to the 19 cells of an
order-3 magic hexagon.  This file embeds, as executable Lean definitions:

* the two terminal validators (`CheckHardcoded::is_solution`, whose boolean
  value checks the 15 raster-labeling line sums, and
  `spiral_solution_is_correct`, which checks the 15 spiral-labeling line sums);
* the copy-based vector search state `BoardState` with its
  `solve_deduce_last_cell_of_line` engine;
* the array search state `ArrayBoardState` with its `solve` engine in both
  recursion strategies, `CreateNew` (clone per descent) and `SwapAndSwapBack`
  (mutate in place, restore on exit).

Boards and pools of `uint8` values are modelled as `List Nat`; the one place
where `uint8` overflow matters (the `needed = Required_Sum - sum` subtraction
in the deduce steps, whose intermediate arithmetic is done on `int` after
integer promotion and then converted back to `uint8`) is modelled by an exact
integer subtraction reduced mod 256.  Recursion depth is bounded by an explicit
`fuel` argument; every recursive call of the engines happens at
`n_cells_filled + 1`, so fuel 20 is exact for a search started on an empty
board.  The sink callback (`consume_fun`) is modelled by returning the list of
boards passed to it, in invocation order.
-/

/-- Constant `N_Hexes = 19` from the source. -/
def N_Hexes : Nat := 19

/-- Constant `Required_Sum = 38` from the source. -/
def Required_Sum : Nat := 38

/-- Sum of the board values at the given cell indices: the fold
`(board[idxs] + ...)` appearing in `sum_correct` and in the deduce steps.
Out-of-range reads (which the program never performs) default to 0. -/
def sumIdxs (board : List Nat) (idxs : List Nat) : Nat :=
  (idxs.map (fun i => board.getD i 0)).sum

/-- Function `sum_correct(board, idxs...)` from the source: the values at the
given indices sum to 38. -/
def sum_correct (board : List Nat) (idxs : List Nat) : Bool :=
  sumIdxs board idxs == Required_Sum

/-- Boolean value returned by `CheckHardcoded::is_solution`: the conjunction of
the 15 hardcoded `sum_correct` calls, which are the line sums of the raster
labeling (rows, then one diagonal family, then the other). -/
def checkHardcodedValue (board : List Nat) : Bool :=
  sum_correct board [0, 1, 2] &&
  sum_correct board [3, 4, 5, 6] &&
  sum_correct board [7, 8, 9, 10, 11] &&
  sum_correct board [12, 13, 14, 15] &&
  sum_correct board [16, 17, 18] &&
  sum_correct board [0, 3, 7] &&
  sum_correct board [1, 4, 8, 12] &&
  sum_correct board [2, 5, 9, 13, 16] &&
  sum_correct board [6, 10, 14, 17] &&
  sum_correct board [11, 15, 18] &&
  sum_correct board [2, 6, 11] &&
  sum_correct board [1, 5, 10, 15] &&
  sum_correct board [0, 4, 9, 14, 18] &&
  sum_correct board [3, 8, 13, 17] &&
  sum_correct board [7, 12, 16]

/-- Function `spiral_solution_is_correct` from the source: the conjunction of
the 15 hardcoded `sum_correct` calls for the spiral labeling's lines. -/
def spiral_solution_is_correct (board : List Nat) : Bool :=
  sum_correct board [0, 1, 2] &&
  sum_correct board [11, 12, 13, 3] &&
  sum_correct board [10, 17, 18, 14, 4] &&
  sum_correct board [9, 16, 15, 5] &&
  sum_correct board [8, 7, 6] &&
  sum_correct board [0, 11, 10] &&
  sum_correct board [1, 12, 17, 9] &&
  sum_correct board [2, 13, 18, 16, 8] &&
  sum_correct board [3, 14, 15, 7] &&
  sum_correct board [4, 5, 6] &&
  sum_correct board [2, 3, 4] &&
  sum_correct board [1, 13, 14, 5] &&
  sum_correct board [0, 12, 18, 15, 6] &&
  sum_correct board [11, 17, 16, 7] &&
  sum_correct board [10, 9, 8]

/-- The 15 lines of the spiral labeling, transcribed group by group from the
index tuples passed to `sum_correct` in `spiral_solution_is_correct`. -/
def spiralLines : List (List Nat) :=
  [[0, 1, 2], [11, 12, 13, 3], [10, 17, 18, 14, 4], [9, 16, 15, 5], [8, 7, 6],
   [0, 11, 10], [1, 12, 17, 9], [2, 13, 18, 16, 8], [3, 14, 15, 7], [4, 5, 6],
   [2, 3, 4], [1, 13, 14, 5], [0, 12, 18, 15, 6], [11, 17, 16, 7], [10, 9, 8]]

/-- Counter threshold `n_attempts_bail` at which `CheckHardcoded::is_solution`
calls `std::exit` (its initial value; the permutation baselines, which are out
of scope here, raise it). -/
def n_attempts_bail : Nat := 100000000

/-- Function `CheckHardcoded::is_solution` together with its side effect on the
global counter `n_attempts`: the counter is incremented first; if it reaches
`n_attempts_bail` the process exits (modelled as `none`); otherwise the call
returns its boolean verdict (which depends only on the board) and the new
counter.  The periodic progress logging has no effect on any value. -/
def checkHardcodedWithCounter (board : List Nat) (n_attempts : Nat) :
    Option (Bool × Nat) :=
  if n_attempts + 1 = n_attempts_bail then none
  else some (checkHardcodedValue board, n_attempts + 1)

/-- The `uint8` value `needed = Required_Sum - (board[have_idxs] + ...)`
computed by the deduce steps: the subtraction is performed on `int` after
integer promotion and the assignment to `uint8_t needed` reduces it mod 256. -/
def neededValue (board : List Nat) (have_idxs : List Nat) : Nat :=
  (((Required_Sum : Int) - (sumIdxs board have_idxs : Int)) % 256).toNat

/-- One arm of the `switch (n_filled)` dispatch written (identically) in
`BoardState::solve_deduce_last_cell_of_line` and `ArrayBoardState::solve`. -/
inductive Step where
  | choose : Step
  | deduce : List Nat → Step
  | terminal : Step
  | nop : Step
deriving DecidableEq

/-- The common `switch (n_cells_filled)` body of
`BoardState::solve_deduce_last_cell_of_line` and `ArrayBoardState::solve`
(the two switches in the source are textually identical): positions
0, 1, 3, 5, 7, 9, 12 branch over all available values (`choose`), the listed
positions deduce the forced value from the given already-filled indices,
position 19 runs the terminal check, and any other count falls through the
switch doing nothing (there is no `default` case). -/
def planStep : Nat → Step
  | 0 => .choose
  | 1 => .choose
  | 2 => .deduce [0, 1]
  | 3 => .choose
  | 4 => .deduce [2, 3]
  | 5 => .choose
  | 6 => .deduce [4, 5]
  | 7 => .choose
  | 8 => .deduce [7, 6]
  | 9 => .choose
  | 10 => .deduce [8, 9]
  | 11 => .deduce [0, 10]
  | 12 => .choose
  | 13 => .deduce [3, 11, 12]
  | 14 => .deduce [1, 5, 13]
  | 15 => .deduce [3, 7, 14]
  | 16 => .deduce [5, 9, 15]
  | 17 => .deduce [7, 11, 16]
  | 18 => .deduce [4, 10, 14, 17]
  | 19 => .terminal
  | _ => .nop

/-- The spiral lines that become fully determined when cell `n` is filled,
given that the engines fill cells in index order 0, 1, 2, ...: the lines that
contain `n` and whose every cell index is at most `n`. -/
def linesClosedAt (n : Nat) : List (List Nat) :=
  spiralLines.filter (fun line => line.contains n && line.all (fun i => decide (i ≤ n)))

/-- The values 1..19, the contents `std::iota` writes into the initial
`available` vector of `BoardState` and the initial `numbers` array of
`ArrayBoardState`. -/
def iotaVals : List Nat :=
  [1, 2, 3, 4, 5, 6, 7, 8, 9, 10, 11, 12, 13, 14, 15, 16, 17, 18, 19]

/-- The copy-based search state `BoardState`: the filled board prefix and the
values still available.  The `consume_fun` callback field is modelled by the
engines returning the list of boards passed to it. -/
structure BoardState where
  board : List Nat
  available : List Nat
deriving DecidableEq

/-- The state `BoardState(consume_fun)` starts from: empty board, all of 1..19
available. -/
def initialBoardState : BoardState :=
  { board := [], available := iotaVals }

/-- Method `BoardState::move_to_board(available_idx)`: push
`available[available_idx]` onto the board and erase position `available_idx`
from `available`. -/
def move_to_board (s : BoardState) (available_idx : Nat) : BoardState :=
  { board := s.board ++ [s.available.getD available_idx 0]
    available := s.available.eraseIdx available_idx }

/-- Position of the first occurrence of `v` in the list (the `std::find` over
`available` in `BoardState::deduce`), `none` when `v` is absent. -/
def findIdxOf : List Nat → Nat → Option Nat
  | [], _ => none
  | x :: xs, v => if x = v then some 0 else (findIdxOf xs v).map (· + 1)

/-- Loop body of `BoardState::choose`: for `i` in `[i0, i0 + k)`, clone the
state, `move_to_board(i)`, and recurse; solutions are emitted in loop order. -/
def chooseLoopV (recurse : BoardState → List (List Nat)) :
    Nat → Nat → BoardState → List (List Nat)
  | 0, _, _ => []
  | k + 1, i, s => recurse (move_to_board s i) ++ chooseLoopV recurse k (i + 1) s

/-- Method `BoardState::choose`: iterate `i` over `[0, available.size())`. -/
def chooseV (recurse : BoardState → List (List Nat)) (s : BoardState) :
    List (List Nat) :=
  chooseLoopV recurse s.available.length 0 s

/-- Method `BoardState::deduce(have_idxs...)`: compute the needed `uint8`
value, `std::find` it in `available`; when found, clone the state, move it to
the board and recurse; when absent, do nothing (prune). -/
def deduceV (recurse : BoardState → List (List Nat)) (have_idxs : List Nat)
    (s : BoardState) : List (List Nat) :=
  match findIdxOf s.available (neededValue s.board have_idxs) with
  | some needed_idx => recurse (move_to_board s needed_idx)
  | none => []

/-- Method `BoardState::solve_deduce_last_cell_of_line`: dispatch on
`board.size()` through the plan table.  Note that the terminal check it calls
is `CheckHardcoded::is_solution` — the raster-labeling line sums — although
the deduce table fills the board in the spiral labeling.  `fuel` bounds the
recursion depth (each recursive call is at `board.size() + 1`). -/
def solveV : Nat → BoardState → List (List Nat)
  | 0, _ => []
  | fuel + 1, s =>
    match planStep s.board.length with
    | .choose => chooseV (solveV fuel) s
    | .deduce have_idxs => deduceV (solveV fuel) have_idxs s
    | .terminal => if checkHardcodedValue s.board then [s.board] else []
    | .nop => []

/-- The array search state `ArrayBoardState`: one 19-element `uint8` array
whose prefix `[0, n_cells_filled)` is the filled board and whose suffix
`[n_cells_filled, 19)` is the available pool. -/
structure ArrayBoardState where
  numbers : List Nat
  n_cells_filled : Nat
deriving DecidableEq

/-- The state `ArrayBoardState(consume_fun)` starts from: `numbers = 1..19`,
nothing filled. -/
def initialArrayState : ArrayBoardState :=
  { numbers := iotaVals, n_cells_filled := 0 }

/-- Operation `std::swap(numbers[i], numbers[j])` on the modelled array.  Every
swap the program performs is in bounds (the array has fixed size 19);
out-of-range indices, which in C++ would be undefined behavior, are modelled
as a no-op. -/
def listSwap (l : List Nat) (i j : Nat) : List Nat :=
  if i < l.length ∧ j < l.length then (l.set i (l.getD j 0)).set j (l.getD i 0)
  else l

/-- Loop of `ArrayBoardState::find_needed`: scan positions `[i, i + k)` of
`numbers` and return the first position holding `needed_value`, else the
sentinel `N_Hexes`. -/
def findNeededLoop (numbers : List Nat) (needed_value : Nat) : Nat → Nat → Nat
  | 0, _ => N_Hexes
  | k + 1, i =>
    if numbers.getD i 0 = needed_value then i
    else findNeededLoop numbers needed_value k (i + 1)

/-- Method `ArrayBoardState::find_needed(needed_value)`: scan the unfilled
suffix `[n_cells_filled, N_Hexes)`. -/
def find_needed (s : ArrayBoardState) (needed_value : Nat) : Nat :=
  findNeededLoop s.numbers needed_value (N_Hexes - s.n_cells_filled) s.n_cells_filled

/-- Method `ArrayBoardState::find_needed_from_idxs(have_idxs...)`: compute the
needed `uint8` value from the already-filled indices, then search the pool. -/
def find_needed_from_idxs (s : ArrayBoardState) (have_idxs : List Nat) : Nat :=
  find_needed s (neededValue s.numbers have_idxs)

/-- The descend step both array strategies use: swap positions
`n_cells_filled` and `i`, then increment `n_cells_filled` (on a clone for
`CreateNew`, in place for `SwapAndSwapBack`). -/
def swapInc (s : ArrayBoardState) (i : Nat) : ArrayBoardState :=
  { numbers := listSwap s.numbers s.n_cells_filled i
    n_cells_filled := s.n_cells_filled + 1 }

/-- Loop body of `ArrayBoardState::choose<CreateNew>`: for `i` in
`[i0, i0 + k)`, clone the state, swap positions `n_cells_filled` and `i`,
increment the clone's `n_cells_filled` and recurse on it. -/
def chooseLoopCN (recurse : ArrayBoardState → List (List Nat)) :
    Nat → Nat → ArrayBoardState → List (List Nat)
  | 0, _, _ => []
  | k + 1, i, s => recurse (swapInc s i) ++ chooseLoopCN recurse k (i + 1) s

/-- Method `ArrayBoardState::choose<CreateNew>`: first descend with no swap
(`++n_cells_filled; solve(); --n_cells_filled` — on this state, which the
clone-free first branch leaves unchanged on return), then loop `i` over
`[n_cells_filled + 1, N_Hexes)` on clones. -/
def chooseCN (recurse : ArrayBoardState → List (List Nat)) (s : ArrayBoardState) :
    List (List Nat) :=
  recurse { s with n_cells_filled := s.n_cells_filled + 1 } ++
    chooseLoopCN recurse (18 - s.n_cells_filled) (s.n_cells_filled + 1) s

/-- Method `ArrayBoardState::deduce_from_idx<CreateNew>(maybe_needed_idx)`:
when the index is not the sentinel `N_Hexes`, clone, swap the found value into
the next cell, and recurse; otherwise do nothing (prune). -/
def deduceFromIdxCN (recurse : ArrayBoardState → List (List Nat))
    (maybe_needed_idx : Nat) (s : ArrayBoardState) : List (List Nat) :=
  if maybe_needed_idx ≠ N_Hexes then recurse (swapInc s maybe_needed_idx) else []

/-- Method `ArrayBoardState::deduce<CreateNew>(have_idxs...)`: the composition
`deduce_from_idx(find_needed_from_idxs(have_idxs...))`. -/
def deduceCN (recurse : ArrayBoardState → List (List Nat)) (have_idxs : List Nat)
    (s : ArrayBoardState) : List (List Nat) :=
  deduceFromIdxCN recurse (find_needed_from_idxs s have_idxs) s

/-- Method `ArrayBoardState::solve<CreateNew>`: dispatch on `n_cells_filled`
through the plan table; the terminal check is `spiral_solution_is_correct`. -/
def solveCN : Nat → ArrayBoardState → List (List Nat)
  | 0, _ => []
  | fuel + 1, s =>
    match planStep s.n_cells_filled with
    | .choose => chooseCN (solveCN fuel) s
    | .deduce have_idxs => deduceCN (solveCN fuel) have_idxs s
    | .terminal => if spiral_solution_is_correct s.numbers then [s.numbers] else []
    | .nop => []

/-- Loop body of `ArrayBoardState::choose<SwapAndSwapBack>`: for `i` in
`[i0, i0 + k)`, in place: swap, increment, recurse, decrement, swap back.  The
state is threaded through; the boards passed to the sink are accumulated. -/
def chooseLoopSW (recurse : ArrayBoardState → ArrayBoardState × List (List Nat)) :
    Nat → Nat → ArrayBoardState → ArrayBoardState × List (List Nat)
  | 0, _, s => (s, [])
  | k + 1, i, s =>
    let r1 := recurse (swapInc s i)
    let s2 : ArrayBoardState :=
      { numbers := listSwap r1.1.numbers (r1.1.n_cells_filled - 1) i
        n_cells_filled := r1.1.n_cells_filled - 1 }
    let r2 := chooseLoopSW recurse k (i + 1) s2
    (r2.1, r1.2 ++ r2.2)

/-- Method `ArrayBoardState::choose<SwapAndSwapBack>`: descend in place with no
swap (`++n_cells_filled; solve(); --n_cells_filled`), then run the in-place
swap loop over `[n_cells_filled + 1, N_Hexes)`. -/
def chooseSW (recurse : ArrayBoardState → ArrayBoardState × List (List Nat))
    (s : ArrayBoardState) : ArrayBoardState × List (List Nat) :=
  let r1 := recurse { s with n_cells_filled := s.n_cells_filled + 1 }
  let s2 : ArrayBoardState := { r1.1 with n_cells_filled := r1.1.n_cells_filled - 1 }
  let r2 := chooseLoopSW recurse (18 - s2.n_cells_filled) (s2.n_cells_filled + 1) s2
  (r2.1, r1.2 ++ r2.2)

/-- Method `ArrayBoardState::deduce_from_idx<SwapAndSwapBack>(maybe_needed_idx)`:
when the index is not the sentinel, swap in place, increment, recurse,
decrement, swap back; otherwise return at once having mutated nothing. -/
def deduceFromIdxSW (recurse : ArrayBoardState → ArrayBoardState × List (List Nat))
    (maybe_needed_idx : Nat) (s : ArrayBoardState) :
    ArrayBoardState × List (List Nat) :=
  if maybe_needed_idx ≠ N_Hexes then
    let r := recurse (swapInc s maybe_needed_idx)
    ({ numbers := listSwap r.1.numbers (r.1.n_cells_filled - 1) maybe_needed_idx
       n_cells_filled := r.1.n_cells_filled - 1 }, r.2)
  else (s, [])

/-- Method `ArrayBoardState::deduce<SwapAndSwapBack>(have_idxs...)`. -/
def deduceSW (recurse : ArrayBoardState → ArrayBoardState × List (List Nat))
    (have_idxs : List Nat) (s : ArrayBoardState) :
    ArrayBoardState × List (List Nat) :=
  deduceFromIdxSW recurse (find_needed_from_idxs s have_idxs) s

/-- Method `ArrayBoardState::solve<SwapAndSwapBack>`: dispatch on
`n_cells_filled` through the plan table; the terminal check is
`spiral_solution_is_correct`.  Returns the state on exit (which the restore
invariant says equals the state on entry) and the sink invocations. -/
def solveSW : Nat → ArrayBoardState → ArrayBoardState × List (List Nat)
  | 0, s => (s, [])
  | fuel + 1, s =>
    match planStep s.n_cells_filled with
    | .choose => chooseSW (solveSW fuel) s
    | .deduce have_idxs => deduceSW (solveSW fuel) have_idxs s
    | .terminal =>
      (s, if spiral_solution_is_correct s.numbers then [s.numbers] else [])
    | .nop => (s, [])

/-- States of the copy-based engines reachable from `s` by the one
state-building operation `move_to_board` with an in-range index (every child state any
`BoardState` engine recurses on — in `choose`, `deduce`,
`solve_check_when_full` and `solve_test_as_lines_filled` alike — is built this
way from its parent). -/
inductive ReachV : BoardState → BoardState → Prop where
  | refl (s : BoardState) : ReachV s s
  | step {s t : BoardState} (h : ReachV s t) (i : Nat)
      (hi : i < t.available.length) : ReachV s (move_to_board t i)

/-- States of the array engines reachable from `s` by the swap-and-increment
descend operation (every child state `ArrayBoardState::solve` recurses on is
`swapInc` of its parent: the clone-free first branch of `choose` is the
identity swap `i = n_cells_filled`, the loop branches use
`i ∈ [n_cells_filled + 1, 19)`, and `deduce_from_idx` uses the found index;
the `SwapAndSwapBack` unwind returns to states already visited). -/
inductive ReachA : ArrayBoardState → ArrayBoardState → Prop where
  | refl (s : ArrayBoardState) : ReachA s s
  | step {s t : ArrayBoardState} (h : ReachA s t) (i : Nat) :
      ReachA s (swapInc t i)

/-- Fold of `move_to_board` over a list of indices: the path a depth-first
branch of the vector engines takes. -/
def applyMoves : BoardState → List Nat → BoardState
  | s, [] => s
  | s, i :: rest => applyMoves (move_to_board s i) rest

/-- All indices of a move path are in range of their momentary `available`. -/
def movesValid : BoardState → List Nat → Bool
  | _, [] => true
  | s, i :: rest => decide (i < s.available.length) && movesValid (move_to_board s i) rest

/-- Fold of `swapInc` over a list of indices: the path a depth-first branch of
the array engines takes. -/
def applySwaps : ArrayBoardState → List Nat → ArrayBoardState
  | s, [] => s
  | s, i :: rest => applySwaps (swapInc s i) rest

/-- A completed board of the spiral labeling (every spiral line sums to 38),
as discovered by the array engines; used as concrete input below. -/
def exampleSolution : List Nat :=
  [3, 17, 18, 11, 9, 14, 15, 13, 10, 12, 16, 19, 7, 1, 6, 8, 4, 2, 5]

/-- The terminal vector-engine state holding `exampleSolution`. -/
def exampleTerminalState : BoardState :=
  { board := exampleSolution, available := [] }

/-- The move-index path along which the vector engine reaches
`exampleTerminalState` from the initial state. -/
def examplePathV : List Nat :=
  [2, 15, 15, 9, 7, 10, 10, 9, 7, 7, 7, 7, 5, 0, 3, 3, 1, 0, 0]

/-- The terminal array-engine state holding `exampleSolution`. -/
def exampleTerminalArrayState : ArrayBoardState :=
  { numbers := exampleSolution, n_cells_filled := 19 }

/-- The swap-index path along which the array engines reach
`exampleTerminalArrayState` from the initial state. -/
def examplePathA : List Nat :=
  [2, 16, 17, 10, 8, 13, 14, 12, 9, 11, 15, 18, 14, 17, 17, 17, 17, 17, 18]

/-- Bool predicate used by the amended form of the deduce-step claim: at every
deduce step of the plan, the indices used plus the fill position form one of
the lines closing at that position, all used indices are already filled, and
the number of lines closing there is 1 except at positions 17 (two lines) and
18 (three lines). -/
def deduceStepRegular (n : Nat) : Bool :=
  match planStep n with
  | .deduce have_idxs =>
      (linesClosedAt n).any (fun line => decide ((have_idxs ++ [n]).Perm line)) &&
      have_idxs.all (fun i => decide (i < n)) &&
      (if n = 17 then (linesClosedAt n).length == 2
       else if n = 18 then (linesClosedAt n).length == 3
       else (linesClosedAt n).length == 1)
  | _ => true

lemma getD_eq_getElem_of_lt (l : List Nat) (i : Nat) (h : i < l.length) :
    l.getD i 0 = l[i] := by
  simp [List.getD_eq_getElem?_getD, List.getElem?_eq_getElem h]

lemma listSwap_length (l : List Nat) (i j : Nat) :
    (listSwap l i j).length = l.length := by
  unfold listSwap; split <;> simp

lemma getD_set_of_lt (l : List Nat) (i b k : Nat)
    (hk : k < l.length) :
    (l.set i b).getD k 0 = if i = k then b else l.getD k 0 := by
  have hk' : k < (l.set i b).length := by simpa using hk
  rw [getD_eq_getElem_of_lt _ _ hk', List.getElem_set]
  split
  · rfl
  · rw [getD_eq_getElem_of_lt _ _ hk]

lemma listSwap_getD (l : List Nat) (i j : Nat) (h : i < l.length ∧ j < l.length)
    (k : Nat) (hk : k < l.length) :
    (listSwap l i j).getD k 0 =
      if j = k then l.getD i 0 else if i = k then l.getD j 0 else l.getD k 0 := by
  unfold listSwap
  rw [if_pos h]
  have hk2 : k < (l.set i (l.getD j 0)).length := by simpa using hk
  rw [getD_set_of_lt (l.set i (l.getD j 0)) j (l.getD i 0) k hk2,
    getD_set_of_lt l i (l.getD j 0) k hk]

lemma set_getD_self (l : List Nat) (i : Nat) (hi : i < l.length) :
    l.set i (l.getD i 0) = l := by
  apply List.ext_getElem (by simp)
  intro k hk1 hk2
  rw [List.getElem_set]
  split
  · next heq => subst heq; exact getD_eq_getElem_of_lt _ _ hi
  · rfl

lemma listSwap_self (l : List Nat) (i : Nat) : listSwap l i i = l := by
  unfold listSwap
  split
  · next h => rw [List.set_set, set_getD_self _ _ h.1]
  · rfl

lemma listSwap_involutive (l : List Nat) (i j : Nat) :
    listSwap (listSwap l i j) i j = l := by
  by_cases h : i < l.length ∧ j < l.length
  · have hlen := listSwap_length l i j
    have h' : i < (listSwap l i j).length ∧ j < (listSwap l i j).length := by
      rw [hlen]; exact h
    apply List.ext_getElem (by rw [listSwap_length, hlen])
    intro k hk1 hk2
    have hk : k < l.length := hk2
    have hkswap : k < (listSwap l i j).length := by rw [hlen]; exact hk
    rw [← getD_eq_getElem_of_lt _ _ hk1, ← getD_eq_getElem_of_lt _ _ hk2]
    rw [listSwap_getD _ i j h' k hkswap]
    by_cases h1 : j = k
    · rw [if_pos h1, listSwap_getD l i j h i h.1]
      by_cases h3 : j = i
      · rw [if_pos h3]
        have hik : i = k := h3.symm.trans h1
        rw [hik]
      · rw [if_neg h3, if_pos rfl, h1]
    · rw [if_neg h1]
      by_cases h2 : i = k
      · rw [if_pos h2, listSwap_getD l i j h j h.2, if_pos rfl, h2]
      · rw [if_neg h2, listSwap_getD l i j h k hk, if_neg h1, if_neg h2]
  · have hid : listSwap l i j = l := by unfold listSwap; rw [if_neg h]
    rw [hid, hid]

lemma getD_cons_set_perm :
    ∀ (t : List Nat) (k a : Nat), k < t.length →
      (t.getD k 0 :: t.set k a).Perm (a :: t) := by
  intro t
  induction t with
  | nil => intro k a h; simp at h
  | cons b r ih =>
    intro k a h
    cases k with
    | zero => simpa using List.Perm.swap a b r
    | succ k =>
      have hk : k < r.length := by simpa using h
      have step1 : (r.getD k 0 :: b :: r.set k a).Perm (b :: r.getD k 0 :: r.set k a) :=
        List.Perm.swap b (r.getD k 0) _
      have step2 : (b :: r.getD k 0 :: r.set k a).Perm (b :: a :: r) :=
        List.Perm.cons b (ih k a hk)
      have step3 : (b :: a :: r).Perm (a :: b :: r) := List.Perm.swap a b r
      simpa using (step1.trans step2).trans step3

lemma listSwap_perm (l : List Nat) (i j : Nat) : (listSwap l i j).Perm l := by
  by_cases h : i < l.length ∧ j < l.length
  · by_cases hij : i = j
    · subst hij; rw [listSwap_self]
    · have hm : listSwap l i j = (l.set i (l.getD j 0)).set j (l.getD i 0) := by
        unfold listSwap; rw [if_pos h]
      have hjm : j < (l.set i (l.getD j 0)).length := by simpa using h.2
      have p1 : ((l.set i (l.getD j 0)).getD j 0 ::
          (l.set i (l.getD j 0)).set j (l.getD i 0)).Perm
          (l.getD i 0 :: l.set i (l.getD j 0)) :=
        getD_cons_set_perm _ j (l.getD i 0) hjm
      have hgd : (l.set i (l.getD j 0)).getD j 0 = l.getD j 0 := by
        rw [getD_set_of_lt _ _ _ _ h.2, if_neg hij]
      have p2 : (l.getD i 0 :: l.set i (l.getD j 0)).Perm (l.getD j 0 :: l) :=
        getD_cons_set_perm l i (l.getD j 0) h.1
      have p12 := p1.trans p2
      rw [hgd] at p12
      rw [hm]
      exact p12.cons_inv
  · have : listSwap l i j = l := by unfold listSwap; rw [if_neg h]
    rw [this]

lemma getD_cons_eraseIdx_perm :
    ∀ (l : List Nat) (i : Nat), i < l.length →
      (l.getD i 0 :: l.eraseIdx i).Perm l := by
  intro l
  induction l with
  | nil => intro i h; simp at h
  | cons a t ih =>
    intro i h
    cases i with
    | zero => simp
    | succ i =>
      have hi : i < t.length := by simpa using h
      have step1 : (t.getD i 0 :: a :: t.eraseIdx i).Perm
          (a :: t.getD i 0 :: t.eraseIdx i) := List.Perm.swap a (t.getD i 0) _
      have step2 : (a :: t.getD i 0 :: t.eraseIdx i).Perm (a :: t) :=
        List.Perm.cons a (ih i hi)
      simpa using step1.trans step2

lemma getD_mem (l : List Nat) (i : Nat) (h : i < l.length) : l.getD i 0 ∈ l := by
  rw [getD_eq_getElem_of_lt _ _ h]; exact List.getElem_mem h

lemma eraseIdx_eq_erase_getD :
    ∀ (l : List Nat) (i : Nat), l.Nodup → i < l.length →
      l.eraseIdx i = l.erase (l.getD i 0) := by
  intro l
  induction l with
  | nil => intro i _ h; simp at h
  | cons a t ih =>
    intro i hnd h
    cases i with
    | zero => simp
    | succ i =>
      have hi : i < t.length := by simpa using h
      have hmem : t.getD i 0 ∈ t := getD_mem t i hi
      have hne : a ≠ t.getD i 0 := fun hEq => (List.nodup_cons.mp hnd).1 (hEq ▸ hmem)
      rw [List.eraseIdx_cons_succ, List.getD_cons_succ,
        List.erase_cons_tail (by simpa using hne), ih i (List.nodup_cons.mp hnd).2 hi]

lemma move_to_board_perm (s : BoardState) (i : Nat) (hi : i < s.available.length) :
    ((move_to_board s i).board ++ (move_to_board s i).available).Perm
      (s.board ++ s.available) := by
  unfold move_to_board
  simp only [List.append_assoc, List.singleton_append]
  exact List.Perm.append_left s.board (getD_cons_eraseIdx_perm s.available i hi)

lemma reachV_trans {a b c : BoardState} (h1 : ReachV a b) (h2 : ReachV b c) :
    ReachV a c := by
  induction h2 with
  | refl => exact h1
  | step _ i hi ih => exact ReachV.step ih i hi

lemma reachA_trans {a b c : ArrayBoardState} (h1 : ReachA a b) (h2 : ReachA b c) :
    ReachA a c := by
  induction h2 with
  | refl => exact h1
  | step _ i ih => exact ReachA.step ih i

lemma reachV_applyMoves :
    ∀ (moves : List Nat) (s : BoardState), movesValid s moves = true →
      ReachV s (applyMoves s moves) := by
  intro moves
  induction moves with
  | nil => intro s _; exact ReachV.refl s
  | cons i rest ih =>
    intro s hv
    have hv' := hv
    unfold movesValid at hv'
    rw [Bool.and_eq_true, decide_eq_true_eq] at hv'
    exact reachV_trans (ReachV.step (ReachV.refl s) i hv'.1)
      (ih (move_to_board s i) hv'.2)

lemma reachA_applySwaps :
    ∀ (swaps : List Nat) (s : ArrayBoardState),
      ReachA s (applySwaps s swaps) := by
  intro swaps
  induction swaps with
  | nil => intro s; exact ReachA.refl s
  | cons i rest ih =>
    intro s
    exact reachA_trans (ReachA.step (ReachA.refl s) i) (ih (swapInc s i))

lemma reachV_perm {s : BoardState} (h : ReachV initialBoardState s) :
    (s.board ++ s.available).Perm iotaVals := by
  induction h with
  | refl => simp [initialBoardState]
  | step _ i hi ih => exact (move_to_board_perm _ i hi).trans ih

lemma reachV_sorted {s : BoardState} (h : ReachV initialBoardState s) :
    s.available.Sorted (· < ·) := by
  induction h with
  | refl => decide
  | step _ i _ ih =>
    exact List.Pairwise.sublist (List.eraseIdx_sublist _ i) ih

lemma reachA_perm {s : ArrayBoardState} (h : ReachA initialArrayState s) :
    s.numbers.Perm iotaVals := by
  induction h with
  | refl => exact List.Perm.refl _
  | step _ i ih => exact (listSwap_perm _ _ _).trans ih

lemma findNeededLoop_found (nums : List Nat) (v : Nat) :
    ∀ (k i : Nat), (∃ j, i ≤ j ∧ j < i + k ∧ nums.getD j 0 = v) →
      i ≤ findNeededLoop nums v k i ∧ findNeededLoop nums v k i < i + k ∧
        nums.getD (findNeededLoop nums v k i) 0 = v := by
  intro k
  induction k with
  | zero => intro i h; obtain ⟨j, h1, h2, _⟩ := h; omega
  | succ k ih =>
    intro i h
    unfold findNeededLoop
    by_cases h0 : nums.getD i 0 = v
    · rw [if_pos h0]
      exact ⟨Nat.le_refl i, by omega, h0⟩
    · rw [if_neg h0]
      obtain ⟨j, h1, h2, h3⟩ := h
      have hji : j ≠ i := fun hEq => h0 (hEq ▸ h3)
      have := ih (i + 1) ⟨j, by omega, by omega, h3⟩
      exact ⟨by omega, by omega, this.2.2⟩

lemma findNeededLoop_not_found (nums : List Nat) (v : Nat) :
    ∀ (k i : Nat), (∀ j, i ≤ j → j < i + k → nums.getD j 0 ≠ v) →
      findNeededLoop nums v k i = 19 := by
  intro k
  induction k with
  | zero => intro i _; rfl
  | succ k ih =>
    intro i h
    unfold findNeededLoop
    rw [if_neg (h i (Nat.le_refl i) (by omega))]
    exact ih (i + 1) (fun j h1 h2 => h j (by omega) (by omega))

lemma findIdxOf_eq_none (v : Nat) :
    ∀ (l : List Nat), v ∉ l → findIdxOf l v = none := by
  intro l
  induction l with
  | nil => intro _; rfl
  | cons x xs ih =>
    intro h
    unfold findIdxOf
    rw [List.mem_cons, not_or] at h
    rw [if_neg (fun hEq => h.1 hEq.symm), ih h.2]
    rfl

lemma deduceV_prune (recurse : BoardState → List (List Nat)) (have_idxs : List Nat)
    (s : BoardState) (h : neededValue s.board have_idxs ∉ s.available) :
    deduceV recurse have_idxs s = [] := by
  unfold deduceV
  rw [findIdxOf_eq_none _ _ h]

lemma find_needed_eq_sentinel (s : ArrayBoardState) (v : Nat)
    (h : ∀ j, s.n_cells_filled ≤ j → j < 19 → s.numbers.getD j 0 ≠ v) :
    find_needed s v = 19 := by
  unfold find_needed
  exact findNeededLoop_not_found s.numbers v _ s.n_cells_filled
    (fun j h1 h2 => h j h1 (by unfold N_Hexes at h2; omega))

lemma deduceCN_prune (recurse : ArrayBoardState → List (List Nat))
    (have_idxs : List Nat) (s : ArrayBoardState)
    (h : ∀ j, s.n_cells_filled ≤ j → j < 19 →
      s.numbers.getD j 0 ≠ neededValue s.numbers have_idxs) :
    deduceCN recurse have_idxs s = [] := by
  unfold deduceCN deduceFromIdxCN find_needed_from_idxs
  rw [find_needed_eq_sentinel s _ h]
  simp [N_Hexes]

lemma deduceSW_prune (recurse : ArrayBoardState → ArrayBoardState × List (List Nat))
    (have_idxs : List Nat) (s : ArrayBoardState)
    (h : ∀ j, s.n_cells_filled ≤ j → j < 19 →
      s.numbers.getD j 0 ≠ neededValue s.numbers have_idxs) :
    deduceSW recurse have_idxs s = (s, []) := by
  unfold deduceSW deduceFromIdxSW find_needed_from_idxs
  rw [find_needed_eq_sentinel s _ h]
  simp [N_Hexes]

lemma neededValue_wrap (board : List Nat) (have_idxs : List Nat)
    (h1 : 38 < sumIdxs board have_idxs) (h2 : sumIdxs board have_idxs ≤ 70) :
    224 ≤ neededValue board have_idxs ∧ neededValue board have_idxs ≤ 255 := by
  unfold neededValue Required_Sum
  omega

lemma chooseLoopSW_eq (recS : ArrayBoardState → ArrayBoardState × List (List Nat))
    (recC : ArrayBoardState → List (List Nat)) (hr : ∀ t, recS t = (t, recC t)) :
    ∀ (k i : Nat) (s : ArrayBoardState),
      chooseLoopSW recS k i s = (s, chooseLoopCN recC k i s) := by
  intro k
  induction k with
  | zero => intro i s; rfl
  | succ k ih =>
    intro i s
    unfold chooseLoopSW chooseLoopCN
    rw [hr (swapInc s i)]
    dsimp only
    have hstate :
        ({ numbers := listSwap (swapInc s i).numbers
             ((swapInc s i).n_cells_filled - 1) i
           n_cells_filled := (swapInc s i).n_cells_filled - 1 } : ArrayBoardState)
          = s := by
      unfold swapInc
      dsimp only
      rw [Nat.add_sub_cancel, listSwap_involutive]
    rw [hstate, ih (i + 1) s]

lemma chooseSW_eq (recS : ArrayBoardState → ArrayBoardState × List (List Nat))
    (recC : ArrayBoardState → List (List Nat)) (hr : ∀ t, recS t = (t, recC t))
    (s : ArrayBoardState) : chooseSW recS s = (s, chooseCN recC s) := by
  unfold chooseSW chooseCN
  rw [hr { s with n_cells_filled := s.n_cells_filled + 1 }]
  dsimp only
  simp only [Nat.add_sub_cancel]
  rw [chooseLoopSW_eq recS recC hr]

lemma deduceFromIdxSW_eq (recS : ArrayBoardState → ArrayBoardState × List (List Nat))
    (recC : ArrayBoardState → List (List Nat)) (hr : ∀ t, recS t = (t, recC t))
    (maybe_needed_idx : Nat) (s : ArrayBoardState) :
    deduceFromIdxSW recS maybe_needed_idx s =
      (s, deduceFromIdxCN recC maybe_needed_idx s) := by
  unfold deduceFromIdxSW deduceFromIdxCN
  by_cases hidx : maybe_needed_idx ≠ N_Hexes
  · rw [if_pos hidx, if_pos hidx, hr (swapInc s maybe_needed_idx)]
    dsimp only
    have hstate :
        ({ numbers := listSwap (swapInc s maybe_needed_idx).numbers
             ((swapInc s maybe_needed_idx).n_cells_filled - 1) maybe_needed_idx
           n_cells_filled := (swapInc s maybe_needed_idx).n_cells_filled - 1 } :
             ArrayBoardState) = s := by
      unfold swapInc
      dsimp only
      rw [Nat.add_sub_cancel, listSwap_involutive]
    rw [hstate]
  · rw [if_neg hidx, if_neg hidx]

lemma deduceSW_eq (recS : ArrayBoardState → ArrayBoardState × List (List Nat))
    (recC : ArrayBoardState → List (List Nat)) (hr : ∀ t, recS t = (t, recC t))
    (have_idxs : List Nat) (s : ArrayBoardState) :
    deduceSW recS have_idxs s = (s, deduceCN recC have_idxs s) := by
  unfold deduceSW deduceCN
  exact deduceFromIdxSW_eq recS recC hr _ s

lemma solveSW_eq : ∀ (fuel : Nat) (s : ArrayBoardState),
    solveSW fuel s = (s, solveCN fuel s) := by
  intro fuel
  induction fuel with
  | zero => intro s; rfl
  | succ fuel ih =>
    intro s
    unfold solveSW solveCN
    cases hp : planStep s.n_cells_filled with
    | choose => exact chooseSW_eq (solveSW fuel) (solveCN fuel) ih s
    | deduce have_idxs => exact deduceSW_eq (solveSW fuel) (solveCN fuel) ih have_idxs s
    | terminal => rfl
    | nop => rfl

lemma chooseLoopV_eq (recurse : BoardState → List (List Nat)) (s : BoardState)
    (hnd : s.available.Nodup) :
    ∀ (k i : Nat), i + k = s.available.length →
      chooseLoopV recurse k i s =
        ((s.available.drop i).map (fun v =>
          recurse { board := s.board ++ [v], available := s.available.erase v })).flatten := by
  intro k
  induction k with
  | zero =>
    intro i h
    rw [List.drop_of_length_le (by omega)]
    rfl
  | succ k ih =>
    intro i h
    have hi : i < s.available.length := by omega
    unfold chooseLoopV
    rw [ih (i + 1) (by omega), List.drop_eq_getElem_cons hi]
    simp only [List.map_cons, List.flatten_cons]
    congr 2
    unfold move_to_board
    rw [eraseIdx_eq_erase_getD _ _ hnd hi, getD_eq_getElem_of_lt _ _ hi]

lemma chooseV_eq (recurse : BoardState → List (List Nat)) (s : BoardState)
    (hnd : s.available.Nodup) :
    chooseV recurse s =
      (s.available.map (fun v =>
        recurse { board := s.board ++ [v], available := s.available.erase v })).flatten := by
  unfold chooseV
  have h := chooseLoopV_eq recurse s hnd s.available.length 0 (by omega)
  simpa using h

lemma chooseLoopCN_eq (recurse : ArrayBoardState → List (List Nat)) :
    ∀ (k i : Nat) (s : ArrayBoardState),
      chooseLoopCN recurse k i s =
        ((List.range' i k).map (fun j => recurse (swapInc s j))).flatten := by
  intro k
  induction k with
  | zero => intro i s; rfl
  | succ k ih =>
    intro i s
    unfold chooseLoopCN
    rw [ih (i + 1) s, List.range'_succ]
    simp only [List.map_cons, List.flatten_cons]

lemma chooseCN_eq (recurse : ArrayBoardState → List (List Nat)) (s : ArrayBoardState)
    (h : s.n_cells_filled < 19) :
    chooseCN recurse s =
      ((List.range' s.n_cells_filled (19 - s.n_cells_filled)).map
        (fun j => recurse (swapInc s j))).flatten := by
  unfold chooseCN
  rw [chooseLoopCN_eq]
  have h19 : 19 - s.n_cells_filled = (18 - s.n_cells_filled) + 1 := by omega
  rw [h19, List.range'_succ]
  simp only [List.map_cons, List.flatten_cons]
  congr 2
  unfold swapInc
  rw [listSwap_self]

lemma swapInc_getD (s : ArrayBoardState) (i : Nat)
    (hn : s.n_cells_filled < s.numbers.length) (hi : i < s.numbers.length) :
    (swapInc s i).numbers.getD s.n_cells_filled 0 = s.numbers.getD i 0 := by
  unfold swapInc
  dsimp only
  rw [listSwap_getD s.numbers s.n_cells_filled i ⟨hn, hi⟩ s.n_cells_filled hn]
  by_cases hcase : i = s.n_cells_filled
  · rw [if_pos hcase, hcase]
  · rw [if_neg hcase, if_pos rfl]

/-- C1: the claim states that the engines pass only valid boards to the sink
and that at the terminal step (19 cells filled) the engine re-validates all 15
line sums of the labeling in which the board was filled, invoking the sink
exactly when they are all correct.  The code contradicts this for
`BoardState::solve_deduce_last_cell_of_line`: it fills the board in the spiral
labeling (its deduce table closes spiral lines), but its terminal step calls
`CheckHardcoded::is_solution`, which checks the raster-labeling line sums.
At the completed board `exampleSolution` — reachable from the initial state
along `examplePathV` — every spiral line sums to 38, the raster check is
false, and the engine does not invoke the sink. -/
theorem vector_deduce_terminal_checks_wrong_labeling :
    ReachV initialBoardState exampleTerminalState ∧
    spiral_solution_is_correct exampleSolution = true ∧
    checkHardcodedValue exampleSolution = false ∧
    solveV 1 exampleTerminalState = [] := by
  refine ⟨?_, by decide, by decide, by decide⟩
  have h : applyMoves initialBoardState examplePathV = exampleTerminalState := by decide
  have hv : movesValid initialBoardState examplePathV = true := by decide
  exact h ▸ reachV_applyMoves examplePathV initialBoardState hv

/-- C2: the claim states that every constraint-guided engine's exhaustive run
invokes the sink exactly 12 times.  For the vector deduce engine this fails:
at the completed board `exampleSolution` — reachable from the initial array
state along `examplePathA`, and emitted by both array engines — the vector
deduce engine's terminal step (which checks the raster labeling's lines on
the spiral-filled board) does not invoke the sink. -/
theorem vector_deduce_rejects_board_array_engines_emit :
    ReachA initialArrayState exampleTerminalArrayState ∧
    solveCN 1 exampleTerminalArrayState = [exampleSolution] ∧
    (solveSW 1 exampleTerminalArrayState).2 = [exampleSolution] ∧
    solveV 1 exampleTerminalState = [] := by
  refine ⟨?_, by decide, by decide, by decide⟩
  have h : applySwaps initialArrayState examplePathA = exampleTerminalArrayState := by
    decide
  exact h ▸ reachA_applySwaps examplePathA initialArrayState

/-- C3: from every state (any `numbers` array, any fill boundary, any fuel),
`ArrayBoardState::solve` specialized to `CreateNew` and specialized to
`SwapAndSwapBack` pass the identical sequence of boards to the sink. -/
theorem createNew_swapAndSwapBack_same_sink_sequence :
    ∀ (fuel : Nat) (s : ArrayBoardState), (solveSW fuel s).2 = solveCN fuel s := by
  intro fuel s
  rw [solveSW_eq fuel s]

/-- C4: in the `SwapAndSwapBack` engine, every call to `solve`, `choose` or
`deduce_from_idx` returns with `numbers` and `n_cells_filled` exactly equal to
their values on entry, and a deduction that fails (sentinel index 19) returns
at once having mutated nothing and recursed into nothing. -/
theorem swapAndSwapBack_restores_state :
    (∀ (fuel : Nat) (s : ArrayBoardState), (solveSW fuel s).1 = s) ∧
    (∀ (fuel : Nat) (s : ArrayBoardState), (chooseSW (solveSW fuel) s).1 = s) ∧
    (∀ (fuel : Nat) (maybe_needed_idx : Nat) (s : ArrayBoardState),
      (deduceFromIdxSW (solveSW fuel) maybe_needed_idx s).1 = s) ∧
    (∀ (recurse : ArrayBoardState → ArrayBoardState × List (List Nat))
      (s : ArrayBoardState), deduceFromIdxSW recurse 19 s = (s, [])) := by
  refine ⟨?_, ?_, ?_, ?_⟩
  · intro fuel s
    rw [solveSW_eq fuel s]
  · intro fuel s
    rw [chooseSW_eq (solveSW fuel) (solveCN fuel) (solveSW_eq fuel) s]
  · intro fuel idx s
    rw [deduceFromIdxSW_eq (solveSW fuel) (solveCN fuel) (solveSW_eq fuel) idx s]
  · intro recurse s
    unfold deduceFromIdxSW
    rw [if_neg (by decide : ¬ ((19 : Nat) ≠ N_Hexes))]

/-- C5: a deduce step computes `needed = 38 - (sum of the filled cells of the
closing line)` as a `uint8` and searches only the available pool for it; when
it is absent the step neither recurses nor places anything (for the in-place
engine it returns the state untouched); when the exact sum exceeds 38 (it
never exceeds 70, being a sum of at most four values that are at most 19) the
`uint8` subtraction wraps into 224..255, and any needed value outside 1..19
cannot be found in a pool whose values lie in 1..19, so the branch is
pruned. -/
theorem deduce_step_prunes_when_needed_unavailable :
    (∀ (recurse : BoardState → List (List Nat)) (have_idxs : List Nat)
      (s : BoardState), neededValue s.board have_idxs ∉ s.available →
      deduceV recurse have_idxs s = []) ∧
    (∀ (recurse : ArrayBoardState → List (List Nat)) (have_idxs : List Nat)
      (s : ArrayBoardState),
      (∀ j, s.n_cells_filled ≤ j → j < 19 →
        s.numbers.getD j 0 ≠ neededValue s.numbers have_idxs) →
      deduceCN recurse have_idxs s = []) ∧
    (∀ (recurse : ArrayBoardState → ArrayBoardState × List (List Nat))
      (have_idxs : List Nat) (s : ArrayBoardState),
      (∀ j, s.n_cells_filled ≤ j → j < 19 →
        s.numbers.getD j 0 ≠ neededValue s.numbers have_idxs) →
      deduceSW recurse have_idxs s = (s, [])) ∧
    (∀ (board have_idxs : List Nat), 38 < sumIdxs board have_idxs →
      sumIdxs board have_idxs ≤ 70 →
      224 ≤ neededValue board have_idxs ∧ neededValue board have_idxs ≤ 255) ∧
    (∀ (recurse : BoardState → List (List Nat)) (have_idxs : List Nat)
      (s : BoardState), (∀ v ∈ s.available, 1 ≤ v ∧ v ≤ 19) →
      (neededValue s.board have_idxs = 0 ∨ 19 < neededValue s.board have_idxs) →
      deduceV recurse have_idxs s = []) := by
  refine ⟨deduceV_prune, deduceCN_prune, deduceSW_prune, neededValue_wrap, ?_⟩
  intro recurse have_idxs s hpool hout
  apply deduceV_prune
  intro hmem
  have hb := hpool _ hmem
  omega

/-- Witness for C5 at concrete inputs: a needed value 27 absent from the pool
prunes the vector deduce; needed 35 absent from the initial array suffix
prunes both array deduces; the sum 54 wraps to 240; and a needed value above
19 prunes against a 1..19 pool. -/
theorem deduce_step_prunes_when_needed_unavailable_witness :
    deduceV (fun t => [t.board]) [0, 1]
      { board := [5, 6], available := [1, 2] } = [] ∧
    deduceCN (fun t => [t.numbers]) [0, 1] initialArrayState = [] ∧
    deduceSW (fun t => (t, [t.numbers])) [0, 1] initialArrayState =
      (initialArrayState, []) ∧
    (224 ≤ neededValue [19, 18, 17] [0, 1, 2] ∧
      neededValue [19, 18, 17] [0, 1, 2] ≤ 255) ∧
    deduceV (fun t => [t.board]) [0, 1, 2]
      { board := [19, 18, 17], available := [1, 2] } = [] := by
  refine ⟨deduce_step_prunes_when_needed_unavailable.1 _ _ _ (by decide),
    deduce_step_prunes_when_needed_unavailable.2.1 _ _ _ ?_,
    deduce_step_prunes_when_needed_unavailable.2.2.1 _ _ _ ?_,
    deduce_step_prunes_when_needed_unavailable.2.2.2.1 _ _ (by decide) (by decide),
    deduce_step_prunes_when_needed_unavailable.2.2.2.2 _ _ _ (by decide)
      (by decide)⟩
  · intro j h1 h2
    interval_cases j <;> decide
  · intro j h1 h2
    interval_cases j <;> decide

/-- C6 counterexample: the claim says every deduce step is a fill position at
which exactly one line becomes fully determined.  At deduce step 18 of the
plan, three spiral lines become fully determined, not one. -/
theorem plan_step18_closes_three_lines :
    planStep 18 = Step.deduce [4, 10, 14, 17] ∧
    (linesClosedAt 18).length = 3 ∧ ¬ (linesClosedAt 18).length = 1 := by decide

/-- C6 amended: at every deduce step `n` of the plan the indices used, plus
the fill position, form (as a set) one of the lines of the spiral labeling
that become fully determined at `n`, and all used indices are already filled
(below `n`); the number of lines closing at a deduce step is exactly one
except at step 17, where two close, and step 18, where three close (the
additional closed lines are checked only by the terminal validation). -/
theorem deduce_steps_close_line_from_already_filled :
    ∀ n : Fin 20, deduceStepRegular n.val = true := by decide

/-- C7: at a branch step the engines try every value of the available pool
exactly once, in the pool's current order: `BoardState::choose` recurses once
per pool value, in pool order, placing that value (stated for a duplicate-free
pool, which every reachable state has); in the copy-based vector engine the
pool is strictly ascending at every reachable state; and
`ArrayBoardState::choose<CreateNew>` recurses once per pool position
`n_cells_filled .. 18` in order, the swapped-in value at the fill position
being the pool value at that position. -/
theorem branch_steps_try_pool_in_order :
    (∀ (recurse : BoardState → List (List Nat)) (s : BoardState),
      s.available.Nodup →
      chooseV recurse s = (s.available.map (fun v =>
        recurse { board := s.board ++ [v],
                  available := s.available.erase v })).flatten) ∧
    (∀ s : BoardState, ReachV initialBoardState s →
      s.available.Sorted (· < ·)) ∧
    (∀ (recurse : ArrayBoardState → List (List Nat)) (s : ArrayBoardState),
      s.n_cells_filled < 19 →
      chooseCN recurse s = ((List.range' s.n_cells_filled
        (19 - s.n_cells_filled)).map (fun j => recurse (swapInc s j))).flatten) ∧
    (∀ (s : ArrayBoardState) (i : Nat), s.n_cells_filled < s.numbers.length →
      i < s.numbers.length →
      (swapInc s i).numbers.getD s.n_cells_filled 0 = s.numbers.getD i 0) := by
  exact ⟨chooseV_eq, fun _ h => reachV_sorted h, chooseCN_eq, swapInc_getD⟩

/-- Witness for C7 at concrete inputs: the branch step on pool `[4, 7]` tries
4 then 7; a reachable vector state has a strictly ascending pool; the array
branch step at 17 filled cells makes exactly two recursive calls; the swap
places the pool value `numbers[3] = 4` at the fill position. -/
theorem branch_steps_try_pool_in_order_witness :
    chooseV (fun t => [t.board]) { board := [], available := [4, 7] } =
      [[4], [7]] ∧
    List.Sorted (· < ·) (move_to_board initialBoardState 2).available ∧
    (chooseCN (fun t => [t.numbers])
      { numbers := iotaVals, n_cells_filled := 17 }).length = 2 ∧
    (swapInc initialArrayState 3).numbers.getD
      initialArrayState.n_cells_filled 0 = 4 := by
  refine ⟨(branch_steps_try_pool_in_order.1 _ _ (by decide)).trans (by decide),
    branch_steps_try_pool_in_order.2.1 _
      (ReachV.step (ReachV.refl _) 2 (by decide)), ?_, ?_⟩
  · have h := branch_steps_try_pool_in_order.2.2.1 (fun t => [t.numbers])
      { numbers := iotaVals, n_cells_filled := 17 } (by decide)
    rw [h]
    decide
  · exact (branch_steps_try_pool_in_order.2.2.2 initialArrayState 3
      (by decide) (by decide)).trans (by decide)

/-- C8: at every state reachable during any engine's search, the filled values
together with the available pool form exactly the multiset 1..19: for the
copy-based `BoardState`, `board ++ available` is a permutation of 1..19 after
every `move_to_board`; for `ArrayBoardState`, the 19-entry `numbers` array is
a permutation of 1..19 after every swap-and-descend operation. -/
theorem search_states_hold_permutation_invariant :
    (∀ s : BoardState, ReachV initialBoardState s →
      (s.board ++ s.available).Perm iotaVals) ∧
    (∀ s : ArrayBoardState, ReachA initialArrayState s →
      s.numbers.Perm iotaVals) := by
  exact ⟨fun _ h => reachV_perm h, fun _ h => reachA_perm h⟩

/-- Witness for C8 at concrete reachable states: after the first move (value 3
to the board) and after the first swap (positions 0 and 5). -/
theorem search_states_hold_permutation_invariant_witness :
    ((move_to_board initialBoardState 2).board ++
      (move_to_board initialBoardState 2).available).Perm iotaVals ∧
    (swapInc initialArrayState 5).numbers.Perm iotaVals := by
  exact ⟨search_states_hold_permutation_invariant.1 _
      (ReachV.step (ReachV.refl _) 2 (by decide)),
    search_states_hold_permutation_invariant.2 _
      (ReachA.step (ReachA.refl _) 5)⟩

/-- C9 counterexample: the claim says the terminal validators perform no
hidden mutation of any state.  `CheckHardcoded::is_solution` increments the
global attempt counter on every call: called with counter 0 it returns
counter 1. -/
theorem checkHardcoded_mutates_attempt_counter :
    checkHardcodedWithCounter iotaVals 0 = some (false, 1) ∧ (1 : Nat) ≠ 0 := by
  decide

/-- C9 amended: running either terminal validator twice on the same completed
board yields the same boolean result, which depends only on the board
(`spiral_solution_is_correct` is a pure function of the board, and the boolean
returned by `CheckHardcoded::is_solution` equals `checkHardcodedValue board`
whatever the counter holds); but `CheckHardcoded::is_solution` is not free of
hidden mutation — each returning call increments the global attempt counter
by one. -/
theorem validator_boolean_stable_counter_increments :
    ∀ (board : List Nat) (c1 c2 : Nat) (r1 n1 r2 n2 : _),
      checkHardcodedWithCounter board c1 = some (r1, n1) →
      checkHardcodedWithCounter board c2 = some (r2, n2) →
      r1 = r2 ∧ r1 = checkHardcodedValue board ∧ n1 = c1 + 1 ∧ n2 = c2 + 1 := by
  intro board c1 c2 r1 n1 r2 n2 h1 h2
  unfold checkHardcodedWithCounter at h1 h2
  by_cases hb1 : c1 + 1 = n_attempts_bail
  · rw [if_pos hb1] at h1
    exact absurd h1 (by simp)
  · rw [if_neg hb1] at h1
    by_cases hb2 : c2 + 1 = n_attempts_bail
    · rw [if_pos hb2] at h2
      exact absurd h2 (by simp)
    · rw [if_neg hb2] at h2
      simp only [Option.some.injEq, Prod.mk.injEq] at h1 h2
      exact ⟨h1.1.symm.trans h2.1, h1.1.symm, h1.2.symm, h2.2.symm⟩

/-- Witness for C9 amended: two calls on the initial 1..19 board with counters
0 and 5 both return the boolean false and counters 1 and 6. -/
theorem validator_boolean_stable_counter_increments_witness :
    checkHardcodedValue iotaVals = false ∧ (1 : Nat) = 0 + 1 := by
  have h := validator_boolean_stable_counter_increments iotaVals 0 5 false 1 false 6
    (by decide) (by decide)
  exact ⟨h.2.1.symm, h.2.2.1⟩

/-- C10: `ArrayBoardState::find_needed(v)` returns an index `i` with
`n_cells_filled ≤ i < 19` and `numbers[i] = v` whenever `v` occurs in the
unfilled suffix, and the sentinel 19 when it does not; `deduce_from_idx`
performs its swap only on a non-sentinel index — which the previous bounds
keep inside the array — and the swapped-in value always comes from the
available segment. -/
theorem find_needed_spec_and_deduce_bounds :
    (∀ (s : ArrayBoardState) (v : Nat),
      (∃ j, s.n_cells_filled ≤ j ∧ j < 19 ∧ s.numbers.getD j 0 = v) →
      s.n_cells_filled ≤ find_needed s v ∧ find_needed s v < 19 ∧
        s.numbers.getD (find_needed s v) 0 = v) ∧
    (∀ (s : ArrayBoardState) (v : Nat),
      (∀ j, s.n_cells_filled ≤ j → j < 19 → s.numbers.getD j 0 ≠ v) →
      find_needed s v = 19) ∧
    (∀ (recurse : ArrayBoardState → List (List Nat)) (s : ArrayBoardState),
      deduceFromIdxCN recurse 19 s = []) ∧
    (∀ (recurse : ArrayBoardState → ArrayBoardState × List (List Nat))
      (s : ArrayBoardState), deduceFromIdxSW recurse 19 s = (s, [])) ∧
    (∀ (recurse : ArrayBoardState → List (List Nat)) (maybe_needed_idx : Nat)
      (s : ArrayBoardState), maybe_needed_idx ≠ 19 →
      deduceFromIdxCN recurse maybe_needed_idx s =
        recurse (swapInc s maybe_needed_idx)) := by
  refine ⟨?_, fun s v h => find_needed_eq_sentinel s v h, ?_, ?_, ?_⟩
  · intro s v h
    obtain ⟨j, h1, h2, h3⟩ := h
    have hk := findNeededLoop_found s.numbers v (N_Hexes - s.n_cells_filled)
      s.n_cells_filled ⟨j, h1, by simp only [N_Hexes]; omega, h3⟩
    simp only [N_Hexes] at hk
    unfold find_needed
    simp only [N_Hexes]
    exact ⟨hk.1, by omega, hk.2.2⟩
  · intro recurse s
    unfold deduceFromIdxCN
    rw [if_neg (by decide : ¬ ((19 : Nat) ≠ N_Hexes))]
  · intro recurse s
    unfold deduceFromIdxSW
    rw [if_neg (by decide : ¬ ((19 : Nat) ≠ N_Hexes))]
  · intro recurse idx s h
    unfold deduceFromIdxCN
    rw [if_pos (show idx ≠ N_Hexes from h)]

/-- Witness for C10 at concrete inputs: searching the full initial suffix for
5 finds index 4; searching for 25 returns the sentinel; both sentinel deduces
do nothing; a non-sentinel deduce recurses on the swapped state. -/
theorem find_needed_spec_and_deduce_bounds_witness :
    (0 ≤ find_needed initialArrayState 5 ∧ find_needed initialArrayState 5 < 19 ∧
      initialArrayState.numbers.getD (find_needed initialArrayState 5) 0 = 5) ∧
    find_needed initialArrayState 25 = 19 ∧
    deduceFromIdxCN (fun t => [t.numbers]) 19 initialArrayState = [] ∧
    deduceFromIdxSW (fun t => (t, [t.numbers])) 19 initialArrayState =
      (initialArrayState, []) ∧
    deduceFromIdxCN (fun t => [t.numbers]) 4 initialArrayState =
      [(swapInc initialArrayState 4).numbers] := by
  refine ⟨?_, find_needed_spec_and_deduce_bounds.2.1 initialArrayState 25 ?_,
    find_needed_spec_and_deduce_bounds.2.2.1 _ _,
    find_needed_spec_and_deduce_bounds.2.2.2.1 _ _,
    (find_needed_spec_and_deduce_bounds.2.2.2.2 _ 4 _ (by decide)).trans rfl⟩
  · have h := find_needed_spec_and_deduce_bounds.1 initialArrayState 5
      ⟨4, by decide, by decide, by decide⟩
    exact ⟨Nat.zero_le _, h.2.1, h.2.2⟩
  · intro j h1 h2
    interval_cases j <;> decide
